import Mathlib

/-!
Shallow embedding of the vue-numeric component, covering both source variants
(src/src/vue-numeric.vue, called the "src" variant below, and
src/unnamed/part_000, called the "part_000" variant), together with the
accounting-js primitives they call (unformat, formatMoney, toFixed).

JavaScript numbers are modelled as exact rationals; the component only ever
adds, compares, rounds and divides by powers of ten, so the rational model is
faithful on every input the theorems below touch.  JS parseFloat and Number
are modelled on the sign/digits/point fragment; exponent notation, hex
literals and Infinity cannot arise from the separator-cleaned strings the
component feeds them under the hypotheses used below, and are omitted.
-/

-- The Batteries rational operations are sealed; reopen them so that concrete
-- evaluations of the model go through `decide`.
attribute [local semireducible] Rat.mul Rat.add Rat.inv Rat.sub Rat.ofScientific

/-- A JavaScript value as it flows through the component: a number, a string,
or null.  `undefined` props are modelled with `Option` in `Config`. -/
inductive JSVal where
  | num (q : ℚ)
  | str (s : String)
  | nul
  deriving DecidableEq, Repr

/-- The component's props (the fields the value engine reads), with the
defaults declared in both variants.  `Number.MAX_SAFE_INTEGER` is
9007199254740991. -/
structure Config where
  currency : String := ""
  max : ℚ := 9007199254740991
  min : ℚ := -9007199254740991
  minus : Bool := false
  emptyValue : JSVal := JSVal.str ""
  precision : Nat := 0
  separator : String := ","
  thousandSeparator : Option String := none
  decimalSeparator : Option String := none
  outputType : String := "Number"
  currencySymbolPosition : String := "prefix"

/-- computed `decimalSeparatorSymbol` (identical in both variants):
an explicit `decimalSeparator` prop wins; else "." when `separator` is ",",
else ",". -/
def decimalSeparatorSymbol (cfg : Config) : String :=
  match cfg.decimalSeparator with
  | some d => d
  | none => if cfg.separator = "," then "." else ","

/-- computed `thousandSeparatorSymbol` (identical in both variants):
an explicit `thousandSeparator` prop wins; else "." for separator ".",
a space for separator "space", else ",". -/
def thousandSeparatorSymbol (cfg : Config) : String :=
  match cfg.thousandSeparator with
  | some t => t
  | none =>
    if cfg.separator = "." then "."
    else if cfg.separator = "space" then " " else ","

/-- computed `symbolPosition`: "%v" without a currency symbol, else
"%v %s" for suffix position and "%s %v" otherwise. -/
def symbolPosition (cfg : Config) : String :=
  if cfg.currency = "" then "%v"
  else if cfg.currencySymbolPosition = "suffix" then "%v %s" else "%s %v"

/-- The character for a decimal digit value. -/
def digitChar (d : Nat) : Char := Char.ofNat (48 + d)

/-- The digit value of a character (as JS would read a decimal digit). -/
def charVal (c : Char) : Nat := c.toNat - 48

/-- Value of a most-significant-first digit string. -/
def digitsVal (l : List Char) : Nat := l.foldl (fun a c => 10 * a + charVal c) 0

/-- Little-endian decimal digits of a natural number, with explicit fuel so
that the definition is structural (and kernel-reducible). -/
def digitsLE : Nat → Nat → List Nat
  | 0, _ => []
  | _ + 1, 0 => []
  | f + 1, n + 1 => (n + 1) % 10 :: digitsLE f ((n + 1) / 10)

/-- Little-endian decimal digits of `n` (fuel `n` is always enough). -/
def natDigitsLE (n : Nat) : List Nat := digitsLE n n

/-- Value of a little-endian digit list (proof-side inverse of `digitsLE`). -/
def valLE : List Nat → Nat
  | [] => 0
  | d :: t => d + 10 * valLE t

/-- Decimal rendering of a natural number, as JS renders integral numbers. -/
def natStr (n : Nat) : List Char :=
  if n = 0 then ['0'] else ((natDigitsLE n).reverse).map digitChar

/-- `m` rendered as exactly `p` digits, left-padded with zeros (the fraction
part emitted by `toFixed`). -/
def padDigits (p m : Nat) : List Char :=
  List.replicate (p - (natStr m).length) '0' ++ natStr m

/-- Whether the first list is an initial segment of the second. -/
def startsWithL : List Char → List Char → Bool
  | [], _ => true
  | _ :: _, [] => false
  | p :: ps, c :: cs => decide (p = c) && startsWithL ps cs

/-- JS `String.prototype.replace` with a plain-string pattern: replace the
first occurrence only; an empty pattern matches at position 0. -/
def replaceFirst (pat repl : List Char) : List Char → List Char
  | [] => if pat.isEmpty then repl else []
  | c :: rest =>
    if pat.isEmpty then repl ++ c :: rest
    else if startsWithL pat (c :: rest) then repl ++ (c :: rest).drop pat.length
    else c :: replaceFirst pat repl rest

/-- The accounting-js negative-parenthesis rewrite
`.replace(/\((?=\d+)(.*)\)/, "-$1")`: at the first "(" that is immediately
followed by a digit and has some ")" later, replace the span up to the last
")" by "-" followed by the span's interior. -/
def jsNegParen : List Char → List Char
  | [] => []
  | c :: rest =>
    if decide (c = '(') && (match rest with | d :: _ => d.isDigit | [] => false)
        && rest.contains ')' then
      let j := rest.length - 1 - (rest.reverse.findIdx (fun x => decide (x = ')')))
      '-' :: (rest.take j ++ rest.drop (j + 1))
    else c :: jsNegParen rest

/-- The character class kept by accounting-js unformat's strip regex
`[^0-9-<decimal>]`: digits, the minus sign, and the decimal separator's
characters. -/
def isKeptChar (dec : String) (c : Char) : Bool :=
  c.isDigit || decide (c = '-') || decide (c ∈ dec.data)

/-- JS `Math.round`: half rounds toward positive infinity. -/
def jsRound (q : ℚ) : ℤ := ⌊q + 1 / 2⌋

/-- The rounded scaled magnitude `Math.round(|q| * 10^p)` that accounting-js
`toFixed` computes inside `formatNumber`. -/
def mVal (p : Nat) (q : ℚ) : Nat := (jsRound (|q| * (10 : ℚ) ^ p)).toNat

/-- Core of the JS `parseFloat` model: digits, then an optional point and
more digits; trailing junk is ignored; no digits at all means NaN (`none`). -/
def jsParseFloatBody (sgn : ℚ) (l : List Char) : Option ℚ :=
  let ip := l.takeWhile Char.isDigit
  let rest := l.drop ip.length
  if rest.head? = some '.' then
    let fp := rest.tail.takeWhile Char.isDigit
    if ip.isEmpty && fp.isEmpty then none
    else some (sgn * ((digitsVal ip : ℚ) + (digitsVal fp : ℚ) / (10 : ℚ) ^ fp.length))
  else if ip.isEmpty then none else some (sgn * (digitsVal ip : ℚ))

/-- JS `parseFloat` on the cleaned character lists unformat produces:
an optional sign, then the digit body. -/
def jsParseFloat (l : List Char) : Option ℚ :=
  if l.head? = some '-' then jsParseFloatBody (-1) l.tail
  else if l.head? = some '+' then jsParseFloatBody 1 l.tail
  else jsParseFloatBody 1 l

/-- accounting-js `unformat(value, decimal)`: numbers pass through, falsy
values give 0, and strings go through the parenthesis rewrite, the strip
regex, the decimal-to-point substitution, and `parseFloat`, with NaN
coerced to 0. -/
def accUnformat (dec : String) (v : JSVal) : ℚ :=
  match v with
  | JSVal.num q => q
  | JSVal.nul => 0
  | JSVal.str s =>
    if s = "" then 0
    else
      let l := jsNegParen s.data
      let cleaned := l.filter (isKeptChar dec)
      let replaced := replaceFirst dec.data ['.'] cleaned
      (jsParseFloat replaced).getD 0

/-- accounting-js `toFixed(value, precision)`: round at `precision` decimal
places (half toward +inf via the exponential trick) and render with exactly
`precision` fraction digits. -/
def accToFixed (q : ℚ) (p : Nat) : String :=
  let m := jsRound (q * (10 : ℚ) ^ p)
  let sgn : List Char := if m < 0 then ['-'] else []
  let a := m.natAbs
  String.mk (sgn ++ natStr (a / 10 ^ p) ++ (if p ≠ 0 then '.' :: padDigits p (a % 10 ^ p) else []))

/-- The regex step `base.substr(mod).replace(/(\d{3})(?=\d)/g, "$1"+thousand)`
on an all-digit list: insert the separator after every 3 digits that are
followed by another digit.  Fuel keeps the recursion structural. -/
def regroup3F (sep : List Char) : Nat → List Char → List Char
  | 0, l => l
  | f + 1, l =>
    if l.length ≤ 3 then l
    else l.take 3 ++ sep ++ regroup3F sep f (l.drop 3)

/-- accounting-js thousand grouping of an integer digit string. -/
def groupThousands (sep : List Char) (base : List Char) : List Char :=
  let md := if base.length > 3 then base.length % 3 else 0
  (if md ≠ 0 then base.take md ++ sep else []) ++ regroup3F sep base.length (base.drop md)

/-- accounting-js `formatNumber(number, precision, thousand, decimal)`:
sign, grouped integer part of the value rounded at `precision` places, and
(when `precision > 0`) the decimal separator plus the fraction digits. -/
def formatNumber (thou dec : String) (p : Nat) (q : ℚ) : List Char :=
  let neg : List Char := if q < 0 then ['-'] else []
  let m := mVal p q
  let base := natStr (m / 10 ^ p)
  neg ++ groupThousands thou.data base ++
    (if p ≠ 0 then dec.data ++ padDigits p (m % 10 ^ p) else [])

/-- accounting-js `formatMoney(value, opts)` with the component's options:
pick the positive or negative variant of the format string (the negative one
is the format with "-" removed and "%v" replaced by "-%v"; the zero variant
equals the positive one), then substitute "%s" by the symbol and "%v" by
`formatNumber` of the absolute value. -/
def formatMoney (cfg : Config) (q : ℚ) : String :=
  let dec := decimalSeparatorSymbol cfg
  let thou := thousandSeparatorSymbol cfg
  let posF := (symbolPosition cfg).data
  let negF := replaceFirst ['%', 'v'] ['-', '%', 'v'] (replaceFirst ['-'] [] posF)
  let fm := if q < 0 then negF else posF
  let body := formatNumber thou dec cfg.precision |q|
  String.mk (replaceFirst ['%', 'v'] body (replaceFirst ['%', 's'] cfg.currency.data fm))

/-- JS whitespace for `Number`'s trimming. -/
def jsWS (c : Char) : Bool :=
  decide (c = ' ') || decide (c = '\t') || decide (c = '\n') || decide (c = '\r')

/-- Core of the JS `Number(string)` model: the whole (trimmed) string must be
sign, digits, optional point and digits. -/
def jsStrictNumBody (sgn : ℚ) (l : List Char) : Option ℚ :=
  let ip := l.takeWhile Char.isDigit
  let rest := l.drop ip.length
  if rest.isEmpty then (if ip.isEmpty then none else some (sgn * (digitsVal ip : ℚ)))
  else if rest.head? = some '.' then
    let fp := rest.tail.takeWhile Char.isDigit
    if decide (fp.length = rest.tail.length) && !(ip.isEmpty && fp.isEmpty) then
      some (sgn * ((digitsVal ip : ℚ) + (digitsVal fp : ℚ) / (10 : ℚ) ^ fp.length))
    else none
  else none

/-- JS `Number(string)` after trimming, decimal fragment. -/
def jsStrictNum (l : List Char) : Option ℚ :=
  if l.head? = some '-' then jsStrictNumBody (-1) l.tail
  else if l.head? = some '+' then jsStrictNumBody 1 l.tail
  else jsStrictNumBody 1 l

/-- JS `ToNumber` as used by the `>=`, `<=`, `<` comparisons in the clamp
checks: numbers pass through, null is 0, a string is trimmed ("" gives 0)
and strictly parsed; `none` stands for NaN. -/
def jsToNumber (v : JSVal) : Option ℚ :=
  match v with
  | JSVal.num q => some q
  | JSVal.nul => some 0
  | JSVal.str s =>
    let t := ((s.data.dropWhile jsWS).reverse.dropWhile jsWS).reverse
    if t.isEmpty then some 0 else jsStrictNum t

/-- JS `value >= b` (false when the coercion yields NaN). -/
def jsGEq (v : JSVal) (b : ℚ) : Bool :=
  match jsToNumber v with
  | some a => decide (b ≤ a)
  | none => false

/-- JS `value <= b` (false when the coercion yields NaN). -/
def jsLEq (v : JSVal) (b : ℚ) : Bool :=
  match jsToNumber v with
  | some a => decide (a ≤ b)
  | none => false

/-- JS `value < 0` (false when the coercion yields NaN). -/
def jsLtZero (v : JSVal) : Bool :=
  match jsToNumber v with
  | some a => decide (a < 0)
  | none => false

/-- JS strict equality `===` on the modelled values. -/
def jsStrictEq : JSVal → JSVal → Bool
  | JSVal.num a, JSVal.num b => decide (a = b)
  | JSVal.str a, JSVal.str b => decide (a = b)
  | JSVal.nul, JSVal.nul => true
  | _, _ => false

/-- The component's `unformat` (identical in both variants): the empty string
is replaced by the `emptyValue` prop before accounting-js unformat runs. -/
def unformatM (cfg : Config) (v : JSVal) : ℚ :=
  let toU := if v = JSVal.str "" then cfg.emptyValue else v
  accUnformat (decimalSeparatorSymbol cfg) toU

/-- The three clamp checks shared by src `process` and part_000 `format`,
in source order, each overwriting the running result (`init` is
`this.unformat(value)`); the comparisons coerce `value` itself. -/
def clampCore (cfg : Config) (v : JSVal) (init : ℚ) : ℚ :=
  let p1 := if jsGEq v cfg.max then cfg.max else init
  let p2 := if jsLEq v cfg.min then cfg.min else p1
  if !cfg.minus && jsLtZero v then (if 0 ≤ cfg.min then cfg.min else 0) else p2

/-- src variant `process(value)`: unformat, clamp, then `format` (which in
the src variant is a bare `formatMoney` call). -/
def processSrc (cfg : Config) (v : JSVal) : JSVal :=
  JSVal.str (formatMoney cfg (clampCore cfg v (unformatM cfg v)))

/-- part_000 variant `format(value)`: the empty string and null pass through
unchanged; otherwise unformat, clamp, and render with `formatMoney`. -/
def formatP0 (cfg : Config) (v : JSVal) : JSVal :=
  if v = JSVal.str "" ∨ v = JSVal.nul then v
  else JSVal.str (formatMoney cfg (clampCore cfg v (unformatM cfg v)))

/-- JS `toLowerCase` on the ASCII range (the only characters the component
compares after lowercasing). -/
def jsToLower (s : String) : String := String.mk (s.data.map Char.toLower)

/-- The emitted payload of a nonzero commit: the raw number, or its
`toFixed` string when `outputType` is (case-insensitively) "string". -/
def emitOutput (cfg : Config) (e : ℚ) : JSVal :=
  if jsToLower cfg.outputType = "string" then JSVal.str (accToFixed e cfg.precision)
  else JSVal.num e

/-- src variant `update(value)`: returns (new amount, emitted value).
A falsy unformat result empties the field and emits ""; otherwise the
amount is left as passed and the output is emitted. -/
def updateSrc (cfg : Config) (v : JSVal) : JSVal × Option JSVal :=
  let e := unformatM cfg v
  if e = 0 then (JSVal.str "", some (JSVal.str ""))
  else (v, some (emitOutput cfg e))

/-- src variant `onBlurHandler` on display text `s` (the input's value and
`this.amount` agree through v-model): non-empty text unformatting to a falsy
number sets the amount to the number 0 and emits 0; otherwise the amount is
processed and `update` runs on it. -/
def onBlurSrc (cfg : Config) (s : String) : JSVal × Option JSVal :=
  if s.length ≠ 0 ∧ unformatM cfg (JSVal.str s) = 0 then (JSVal.num 0, some (JSVal.num 0))
  else updateSrc cfg (processSrc cfg (JSVal.str s))

/-- part_000 variant `update()` on display text `s`: falsy unformat result
with non-empty text gives `format(0)` and emits 0, with empty text empties
and emits ""; otherwise the display is reformatted from the pre-commit text
and the unformatted (unclamped) value is emitted. -/
def updateP0 (cfg : Config) (s : String) : JSVal × Option JSVal :=
  let e := unformatM cfg (JSVal.str s)
  if e = 0 then
    if s.length ≠ 0 then (formatP0 cfg (JSVal.num 0), some (JSVal.num 0))
    else (JSVal.str "", some (JSVal.str ""))
  else (formatP0 cfg (JSVal.str s), some (emitOutput cfg e))

/-- part_000 variant `onBlurHandler`: emits the blur event, then `update`. -/
def onBlurP0 (cfg : Config) (s : String) : JSVal × Option JSVal := updateP0 cfg s

/-- src variant `value` watcher: recompute the display via `process` when
`newValue !== amount` under JS strict equality. -/
def valueWatcherSrc (cfg : Config) (amount newValue : JSVal) : JSVal :=
  if jsStrictEq newValue amount then amount else processSrc cfg newValue

/-- part_000 variant `value` watcher: recompute the display via `format`
when `newValue !== amount` under JS strict equality. -/
def valueWatcherP0 (cfg : Config) (amount newValue : JSVal) : JSVal :=
  if jsStrictEq newValue amount then amount else formatP0 cfg newValue

/-- src variant `separator`/`currency`/`precision` watcher body:
`this.amount = this.process(this.value)` (the displayed text is unused). -/
def configWatcherSrc (cfg : Config) (value _amount : JSVal) : JSVal :=
  processSrc cfg value

/-- part_000 variant `separator`/`currency`/`precision` watcher body:
`this.amount = this.format(this.value)` (the displayed text is unused). -/
def configWatcherP0 (cfg : Config) (value _amount : JSVal) : JSVal :=
  formatP0 cfg value

/-- JS `Math.round(|w| * 10^p) / 10^p` with the sign of `w` re-attached:
the numeric value that a rendered string parses back to. -/
def gridRound (p : Nat) (w : ℚ) : ℚ :=
  (if w < 0 then -1 else 1) * ((mVal p w : ℚ) / (10 : ℚ) ^ p)

/-- Characters that vanish under unformat's strip regex and cannot trigger
the parenthesis rewrite: not kept (no digit, no minus, not a decimal
separator character) and not a parenthesis. -/
abbrev strippedAway (dec : String) (l : List Char) : Prop :=
  ∀ c ∈ l, isKeptChar dec c = false ∧ c ≠ '(' ∧ c ≠ ')'

/-- The separator sanity conditions under which a rendered money string
parses back to its grid value: the decimal separator is nonempty and free of
digits, minus, parentheses and spaces; the thousand separator and the
currency symbol consist of characters the unformat regex strips (and cannot
trigger the parenthesis rewrite), and the symbol does not contain `%`. -/
abbrev roundTripGuards (cfg : Config) : Prop :=
  (decimalSeparatorSymbol cfg).data ≠ [] ∧
  (∀ c ∈ (decimalSeparatorSymbol cfg).data,
      c.isDigit = false ∧ c ≠ '-' ∧ c ≠ '(' ∧ c ≠ ')' ∧ c ≠ ' ') ∧
  strippedAway (decimalSeparatorSymbol cfg) (thousandSeparatorSymbol cfg).data ∧
  strippedAway (decimalSeparatorSymbol cfg) cfg.currency.data ∧
  (∀ c ∈ cfg.currency.data, c ≠ '%')

/-- Claim-side clamp, written from the spec's words for C1: three checks in
the order max, min, sign, each unconditionally overwriting the running
result, starting from the value itself. -/
def specClamp (mx mn : ℚ) (minusAllowed : Bool) (v : ℚ) : ℚ :=
  let r1 := if mx ≤ v then mx else v
  let r2 := if v ≤ mn then mn else r1
  if minusAllowed = false ∧ v < 0 then (if 0 ≤ mn then mn else 0) else r2

/-- The clamp pipeline applied to a plain number (both variants agree). -/
def clampNum (cfg : Config) (v : ℚ) : ℚ :=
  clampCore cfg (JSVal.num v) (unformatM cfg (JSVal.num v))

/-- Claim-side separator resolution, written from the spec's words for C7:
(decimal, thousand) from overrides first, then the shorthand. -/
def specSeparators (dOv tOv : Option String) (sh : String) : String × String :=
  (match dOv with
   | some d => d
   | none => if sh = "," then "." else ",",
   match tOv with
   | some t => t
   | none => if sh = "." then "." else if sh = "space" then " " else ",")

/-! ### Digit-string infrastructure -/

theorem digitsLE_zero (f : Nat) : digitsLE f 0 = [] := by
  cases f <;> rfl

theorem digitsLE_fuel : ∀ f f' n, n ≤ f → n ≤ f' → digitsLE f n = digitsLE f' n := by
  intro f
  induction f with
  | zero =>
    intro f' n hf _
    have hn : n = 0 := Nat.le_zero.mp hf
    subst hn
    rw [digitsLE_zero, digitsLE_zero]
  | succ f ih =>
    intro f' n hf hf'
    cases n with
    | zero => rw [digitsLE_zero, digitsLE_zero]
    | succ m =>
      cases f' with
      | zero => exact absurd hf' (by omega)
      | succ g =>
        show (m + 1) % 10 :: digitsLE f ((m + 1) / 10)
            = (m + 1) % 10 :: digitsLE g ((m + 1) / 10)
        have hd : (m + 1) / 10 ≤ m := by
          have := Nat.div_lt_self (Nat.succ_pos m) (by omega : 1 < 10)
          omega
        rw [ih g ((m + 1) / 10) (by omega) (by omega)]

theorem natDigitsLE_succ (n : Nat) (h : n ≠ 0) :
    natDigitsLE n = n % 10 :: natDigitsLE (n / 10) := by
  cases n with
  | zero => exact absurd rfl h
  | succ m =>
    show digitsLE (m + 1) (m + 1) = (m + 1) % 10 :: digitsLE ((m + 1) / 10) ((m + 1) / 10)
    have hd : (m + 1) / 10 ≤ m := by
      have := Nat.div_lt_self (Nat.succ_pos m) (by omega : 1 < 10)
      omega
    show (m + 1) % 10 :: digitsLE m ((m + 1) / 10)
        = (m + 1) % 10 :: digitsLE ((m + 1) / 10) ((m + 1) / 10)
    rw [digitsLE_fuel m ((m + 1) / 10) ((m + 1) / 10) hd (Nat.le_refl _)]

theorem valLE_natDigitsLE (n : Nat) : valLE (natDigitsLE n) = n := by
  induction n using Nat.strong_induction_on with
  | _ n ih =>
    by_cases h : n = 0
    · subst h; rfl
    · rw [natDigitsLE_succ n h]
      show n % 10 + 10 * valLE (natDigitsLE (n / 10)) = n
      rw [ih (n / 10) (Nat.div_lt_self (Nat.pos_of_ne_zero h) (by omega))]
      omega

theorem mem_natDigitsLE_lt {n d : Nat} (h : d ∈ natDigitsLE n) : d < 10 := by
  induction n using Nat.strong_induction_on with
  | _ n ih =>
    by_cases h0 : n = 0
    · subst h0; simp [natDigitsLE, digitsLE] at h
    · rw [natDigitsLE_succ n h0] at h
      rcases List.mem_cons.mp h with h1 | h1
      · subst h1; exact Nat.mod_lt _ (by omega)
      · exact ih (n / 10) (Nat.div_lt_self (Nat.pos_of_ne_zero h0) (by omega)) h1

theorem natDigitsLE_length_le {n p : Nat} (h : n < 10 ^ p) :
    (natDigitsLE n).length ≤ p := by
  induction n using Nat.strong_induction_on generalizing p with
  | _ n ih =>
    by_cases h0 : n = 0
    · subst h0
      show (digitsLE 0 0).length ≤ p
      simp [digitsLE]
    · cases p with
      | zero => exact absurd (by simpa using h : n = 0) h0
      | succ q =>
        rw [natDigitsLE_succ n h0]
        have hdiv : n / 10 < 10 ^ q := by
          rw [Nat.div_lt_iff_lt_mul (by omega : 0 < 10)]
          calc n < 10 ^ (q + 1) := h
            _ = 10 ^ q * 10 := by ring
        have := ih (n / 10) (Nat.div_lt_self (Nat.pos_of_ne_zero h0) (by omega)) hdiv
        simpa using Nat.succ_le_succ this

theorem digitChar_isDigit {d : Nat} (h : d < 10) : (digitChar d).isDigit = true := by
  interval_cases d <;> decide

theorem charVal_digitChar {d : Nat} (h : d < 10) : charVal (digitChar d) = d := by
  interval_cases d <;> decide

theorem natStr_ne_nil (n : Nat) : natStr n ≠ [] := by
  unfold natStr
  split
  · simp
  · next h =>
    simp only [ne_eq, List.map_eq_nil_iff, List.reverse_eq_nil_iff]
    intro hc
    have := valLE_natDigitsLE n
    rw [hc] at this
    exact h this.symm

theorem mem_natStr_isDigit {n : Nat} {c : Char} (h : c ∈ natStr n) : c.isDigit = true := by
  unfold natStr at h
  split at h
  · simp only [List.mem_singleton] at h
    subst h
    decide
  · rcases List.mem_map.mp h with ⟨d, hd, rfl⟩
    exact digitChar_isDigit (mem_natDigitsLE_lt (List.mem_reverse.mp hd))

theorem foldl_digits_map (L : List Nat) (hL : ∀ d ∈ L, d < 10) (a : Nat) :
    (L.map digitChar).foldl (fun a c => 10 * a + charVal c) a
      = L.foldl (fun a d => 10 * a + d) a := by
  induction L generalizing a with
  | nil => rfl
  | cons d T ih =>
    simp only [List.map_cons, List.foldl_cons]
    rw [charVal_digitChar (hL d (by simp))]
    exact ih (fun x hx => hL x (by simp [hx])) _

theorem foldl_reverse_valLE (L : List Nat) (a : Nat) :
    L.reverse.foldl (fun a d => 10 * a + d) a = a * 10 ^ L.length + valLE L := by
  induction L generalizing a with
  | nil => simp [valLE]
  | cons d T ih =>
    simp only [List.reverse_cons, List.foldl_append, List.foldl_cons, List.foldl_nil]
    rw [ih a]
    show 10 * (a * 10 ^ T.length + valLE T) + d = a * 10 ^ (d :: T).length + valLE (d :: T)
    show 10 * (a * 10 ^ T.length + valLE T) + d = a * 10 ^ (T.length + 1) + (d + 10 * valLE T)
    ring

theorem digitsVal_natStr (n : Nat) : digitsVal (natStr n) = n := by
  unfold natStr
  split
  · next h => subst h; decide
  · next h =>
    show digitsVal (((natDigitsLE n).reverse).map digitChar) = n
    unfold digitsVal
    rw [foldl_digits_map ((natDigitsLE n).reverse)
      (fun d hd => mem_natDigitsLE_lt (List.mem_reverse.mp hd)) 0]
    rw [foldl_reverse_valLE (natDigitsLE n) 0]
    rw [valLE_natDigitsLE]
    ring

theorem natStr_length_le {n p : Nat} (hp : p ≠ 0) (h : n < 10 ^ p) :
    (natStr n).length ≤ p := by
  unfold natStr
  split
  · simpa using Nat.pos_of_ne_zero hp
  · rw [List.length_map, List.length_reverse]
    exact natDigitsLE_length_le h

theorem foldl_replicate_zero (k : Nat) :
    (List.replicate k '0').foldl (fun a c => 10 * a + charVal c) 0 = 0 := by
  induction k with
  | zero => rfl
  | succ j ih => simpa [List.replicate_succ] using ih

theorem digitsVal_replicate_zero_append (k : Nat) (l : List Char) :
    digitsVal (List.replicate k '0' ++ l) = digitsVal l := by
  unfold digitsVal
  rw [List.foldl_append, foldl_replicate_zero]

theorem digitsVal_padDigits (p m : Nat) : digitsVal (padDigits p m) = m := by
  unfold padDigits
  rw [digitsVal_replicate_zero_append, digitsVal_natStr]

theorem padDigits_length {p m : Nat} (hp : p ≠ 0) (h : m < 10 ^ p) :
    (padDigits p m).length = p := by
  unfold padDigits
  rw [List.length_append, List.length_replicate]
  have := natStr_length_le hp h
  omega

theorem mem_padDigits_isDigit {p m : Nat} {c : Char} (h : c ∈ padDigits p m) :
    c.isDigit = true := by
  unfold padDigits at h
  rcases List.mem_append.mp h with h1 | h1
  · rw [List.eq_of_mem_replicate h1]; decide
  · exact mem_natStr_isDigit h1

/-! ### Filtering, substring replacement and the parenthesis rewrite -/

theorem filter_all_true {p : Char → Bool} :
    ∀ {l : List Char}, (∀ c ∈ l, p c = true) → l.filter p = l := by
  intro l
  induction l with
  | nil => intro _; rfl
  | cons c rest ih =>
    intro h
    rw [List.filter_cons, h c (by simp), ih (fun x hx => h x (by simp [hx]))]
    simp

theorem filter_all_false {p : Char → Bool} :
    ∀ {l : List Char}, (∀ c ∈ l, p c = false) → l.filter p = [] := by
  intro l
  induction l with
  | nil => intro _; rfl
  | cons c rest ih =>
    intro h
    rw [List.filter_cons, h c (by simp), ih (fun x hx => h x (by simp [hx]))]
    simp

theorem filter_regroup3F {P : Char → Bool} {sep : List Char}
    (hsep : ∀ c ∈ sep, P c = false) :
    ∀ f l, (regroup3F sep f l).filter P = l.filter P := by
  intro f
  induction f with
  | zero => intro l; rfl
  | succ f ih =>
    intro l
    show (if l.length ≤ 3 then l else l.take 3 ++ sep ++ regroup3F sep f (l.drop 3)).filter P
        = l.filter P
    split
    · rfl
    · rw [List.filter_append, List.filter_append, ih (l.drop 3),
        filter_all_false hsep]
      conv_rhs => rw [← List.take_append_drop 3 l, List.filter_append]
      simp

theorem filter_groupThousands {P : Char → Bool} {sep base : List Char}
    (hsep : ∀ c ∈ sep, P c = false) :
    (groupThousands sep base).filter P = base.filter P := by
  unfold groupThousands
  rw [List.filter_append, filter_regroup3F hsep]
  by_cases hmd : (if base.length > 3 then base.length % 3 else 0) ≠ 0
  · rw [if_pos hmd, List.filter_append, filter_all_false hsep, List.append_nil]
    conv_rhs =>
      rw [← List.take_append_drop (if base.length > 3 then base.length % 3 else 0) base,
        List.filter_append]
  · rw [if_neg hmd]
    push_neg at hmd
    rw [hmd]
    simp

theorem startsWithL_self_append : ∀ pat F : List Char, startsWithL pat (pat ++ F) = true := by
  intro pat
  induction pat with
  | nil => intro F; rfl
  | cons p ps ih =>
    intro F
    show (decide (p = p) && startsWithL ps (ps ++ F)) = true
    simp [ih F]

theorem replaceFirst_cons (pat repl : List Char) (c : Char) (rest : List Char)
    (hp : pat ≠ []) :
    replaceFirst pat repl (c :: rest) =
      if startsWithL pat (c :: rest) then repl ++ (c :: rest).drop pat.length
      else c :: replaceFirst pat repl rest := by
  conv_lhs => unfold replaceFirst
  rw [if_neg (by simpa using hp)]

theorem replaceFirst_of_not_head {p0 : Char} {ps repl : List Char} :
    ∀ {l : List Char}, (∀ c ∈ l, c ≠ p0) → replaceFirst (p0 :: ps) repl l = l := by
  intro l
  induction l with
  | nil => intro _; rfl
  | cons c rest ih =>
    intro h
    rw [replaceFirst_cons _ _ _ _ (by simp)]
    have hsw : startsWithL (p0 :: ps) (c :: rest) = false := by
      show (decide (p0 = c) && startsWithL ps rest) = false
      have : p0 ≠ c := fun hc => h c (by simp) hc.symm
      simp [this]
    rw [hsw]
    simp only [Bool.false_eq_true, if_false]
    rw [ih (fun x hx => h x (by simp [hx]))]

theorem replaceFirst_here (p0 : Char) (ps repl F : List Char) :
    replaceFirst (p0 :: ps) repl ((p0 :: ps) ++ F) = repl ++ F := by
  rw [show (p0 :: ps) ++ F = p0 :: (ps ++ F) from rfl,
    replaceFirst_cons _ _ _ _ (by simp)]
  have hsw : startsWithL (p0 :: ps) (p0 :: (ps ++ F)) = true := startsWithL_self_append _ F
  rw [hsw]
  simp only [if_true]
  congr 1
  exact List.drop_left (p0 :: ps) F

theorem replaceFirst_at {p0 : Char} {ps repl : List Char} :
    ∀ {A : List Char} (F : List Char), (∀ c ∈ A, c ≠ p0) →
      replaceFirst (p0 :: ps) repl (A ++ (p0 :: ps) ++ F) = A ++ repl ++ F := by
  intro A
  induction A with
  | nil => intro F _; simpa using replaceFirst_here p0 ps repl F
  | cons a A ih =>
    intro F h
    rw [show (a :: A) ++ (p0 :: ps) ++ F = a :: (A ++ (p0 :: ps) ++ F) by simp,
      replaceFirst_cons _ _ _ _ (by simp)]
    have hsw : startsWithL (p0 :: ps) (a :: (A ++ (p0 :: ps) ++ F)) = false := by
      show (decide (p0 = a) && _) = false
      have : p0 ≠ a := fun hc => h a (by simp) hc.symm
      simp [this]
    rw [hsw]
    simp only [Bool.false_eq_true, if_false]
    rw [ih F (fun x hx => h x (by simp [hx]))]
    simp

theorem mem_replaceFirst {pat repl : List Char} :
    ∀ {l : List Char} {c : Char}, c ∈ replaceFirst pat repl l → c ∈ repl ∨ c ∈ l := by
  intro l
  induction l with
  | nil =>
    intro c h
    show c ∈ repl ∨ c ∈ ([] : List Char)
    unfold replaceFirst at h
    split at h
    · exact Or.inl h
    · simp at h
  | cons d rest ih =>
    intro c h
    unfold replaceFirst at h
    split at h
    · rcases List.mem_append.mp h with h1 | h1
      · exact Or.inl h1
      · exact Or.inr h1
    · split at h
      · rcases List.mem_append.mp h with h1 | h1
        · exact Or.inl h1
        · exact Or.inr (List.drop_subset _ _ h1)
      · rcases List.mem_cons.mp h with h1 | h1
        · exact Or.inr (by simp [h1])
        · rcases ih h1 with h2 | h2
          · exact Or.inl h2
          · exact Or.inr (by simp [h2])

theorem jsNegParen_of_no_open :
    ∀ {l : List Char}, (∀ c ∈ l, c ≠ '(') → jsNegParen l = l := by
  intro l
  induction l with
  | nil => intro _; rfl
  | cons c rest ih =>
    intro h
    have hc : c ≠ '(' := h c (by simp)
    have htail : jsNegParen rest = rest := ih (fun x hx => h x (by simp [hx]))
    unfold jsNegParen
    simp [hc, htail]

theorem jsNegParen_of_no_digit :
    ∀ {l : List Char}, (∀ c ∈ l, c.isDigit = false) → jsNegParen l = l := by
  intro l
  induction l with
  | nil => intro _; rfl
  | cons c rest ih =>
    intro h
    have htail : jsNegParen rest = rest := ih (fun x hx => h x (by simp [hx]))
    cases rest with
    | nil =>
      unfold jsNegParen
      simp [htail]
    | cons d t =>
      have hd : d.isDigit = false := h d (by simp)
      unfold jsNegParen
      simp [hd, htail]

theorem mem_jsNegParen :
    ∀ {l : List Char} {c : Char}, c ∈ jsNegParen l → c = '-' ∨ c ∈ l := by
  intro l
  induction l with
  | nil => intro c h; simp [jsNegParen] at h
  | cons d rest ih =>
    intro c h
    unfold jsNegParen at h
    split at h
    · rcases List.mem_cons.mp h with h1 | h1
      · exact Or.inl h1
      · rcases List.mem_append.mp h1 with h2 | h2
        · exact Or.inr (by simp [List.take_subset _ _ h2])
        · exact Or.inr (by simp [List.drop_subset _ _ h2])
    · rcases List.mem_cons.mp h with h1 | h1
      · exact Or.inr (by simp [h1])
      · rcases ih h1 with h2 | h2
        · exact Or.inl h2
        · exact Or.inr (by simp [h2])

/-! ### parseFloat on canonical digit strings -/

theorem takeWhile_all {p : Char → Bool} :
    ∀ {l : List Char}, (∀ c ∈ l, p c = true) → l.takeWhile p = l := by
  intro l
  induction l with
  | nil => intro _; rfl
  | cons c rest ih =>
    intro h
    rw [List.takeWhile_cons, h c (by simp)]
    simp [ih (fun x hx => h x (by simp [hx]))]

theorem takeWhile_none {p : Char → Bool} :
    ∀ {l : List Char}, (∀ c ∈ l, p c = false) → l.takeWhile p = [] := by
  intro l
  cases l with
  | nil => intro _; rfl
  | cons c rest =>
    intro h
    rw [List.takeWhile_cons, h c (by simp)]
    simp

theorem takeWhile_append_stop {p : Char → Bool} {A : List Char} {b : Char} {B : List Char}
    (hA : ∀ c ∈ A, p c = true) (hb : p b = false) :
    (A ++ b :: B).takeWhile p = A := by
  induction A with
  | nil => simpa [List.takeWhile_cons] using hb
  | cons a A ih =>
    rw [List.cons_append, List.takeWhile_cons, hA a (by simp)]
    simp only [if_true]
    rw [ih (fun x hx => hA x (by simp [hx]))]

theorem jsParseFloatBody_int (sgn : ℚ) {I : List Char}
    (hI : ∀ c ∈ I, c.isDigit = true) (hne : I ≠ []) :
    jsParseFloatBody sgn I = some (sgn * (digitsVal I : ℚ)) := by
  simp only [jsParseFloatBody]
  rw [takeWhile_all hI, List.drop_length]
  simp [hne]

theorem jsParseFloatBody_point (sgn : ℚ) {I F : List Char}
    (hI : ∀ c ∈ I, c.isDigit = true) (hF : ∀ c ∈ F, c.isDigit = true) (hne : I ≠ []) :
    jsParseFloatBody sgn (I ++ '.' :: F)
      = some (sgn * ((digitsVal I : ℚ) + (digitsVal F : ℚ) / (10 : ℚ) ^ F.length)) := by
  simp only [jsParseFloatBody]
  rw [takeWhile_append_stop hI (by decide), List.drop_left]
  simp only [List.head?_cons, List.tail_cons, if_true]
  rw [takeWhile_all hF, if_neg (by simp [hne])]

theorem jsParseFloatBody_none (sgn : ℚ) {l : List Char}
    (h : ∀ c ∈ l, c.isDigit = false) : jsParseFloatBody sgn l = none := by
  simp only [jsParseFloatBody]
  rw [takeWhile_none h]
  simp only [List.length_nil, List.drop_zero, List.isEmpty_nil, Bool.true_and]
  by_cases hh : l.head? = some '.'
  · rw [if_pos hh]
    have htail : l.tail.takeWhile Char.isDigit = [] :=
      takeWhile_none (fun c hc => h c (List.tail_subset l hc))
    rw [htail]
    simp
  · rw [if_neg hh]
    simp

theorem jsParseFloat_none_of_no_digit {l : List Char}
    (h : ∀ c ∈ l, c.isDigit = false) : jsParseFloat l = none := by
  unfold jsParseFloat
  have htail : ∀ c ∈ l.tail, c.isDigit = false := fun c hc => h c (List.tail_subset l hc)
  by_cases h1 : l.head? = some '-'
  · rw [if_pos h1, jsParseFloatBody_none _ htail]
  · rw [if_neg h1]
    by_cases h2 : l.head? = some '+'
    · rw [if_pos h2, jsParseFloatBody_none _ htail]
    · rw [if_neg h2, jsParseFloatBody_none _ h]

theorem isDigit_ne_minus {c : Char} (h : c.isDigit = true) : c ≠ '-' := by
  intro hc
  subst hc
  simp at h

theorem isDigit_ne_plus {c : Char} (h : c.isDigit = true) : c ≠ '+' := by
  intro hc
  subst hc
  simp at h

theorem jsParseFloat_pos {I : List Char}
    (hI : ∀ c ∈ I, c.isDigit = true) (hne : I ≠ []) :
    jsParseFloat I = some (digitsVal I : ℚ) := by
  unfold jsParseFloat
  cases I with
  | nil => exact absurd rfl hne
  | cons c r =>
    have hc := hI c (by simp)
    rw [if_neg (by simp [isDigit_ne_minus hc]), if_neg (by simp [isDigit_ne_plus hc])]
    rw [jsParseFloatBody_int 1 hI hne]
    simp

theorem jsParseFloat_pos_point {I F : List Char}
    (hI : ∀ c ∈ I, c.isDigit = true) (hF : ∀ c ∈ F, c.isDigit = true) (hne : I ≠ []) :
    jsParseFloat (I ++ '.' :: F)
      = some ((digitsVal I : ℚ) + (digitsVal F : ℚ) / (10 : ℚ) ^ F.length) := by
  unfold jsParseFloat
  cases I with
  | nil => exact absurd rfl hne
  | cons c r =>
    have hc := hI c (by simp)
    rw [if_neg (by simp [isDigit_ne_minus hc]), if_neg (by simp [isDigit_ne_plus hc])]
    rw [jsParseFloatBody_point 1 hI hF hne]
    simp

theorem jsParseFloat_neg {I : List Char}
    (hI : ∀ c ∈ I, c.isDigit = true) (hne : I ≠ []) :
    jsParseFloat ('-' :: I) = some (-(digitsVal I : ℚ)) := by
  unfold jsParseFloat
  rw [if_pos (by simp)]
  simp only [List.tail_cons]
  rw [jsParseFloatBody_int (-1) hI hne]
  simp

theorem jsParseFloat_neg_point {I F : List Char}
    (hI : ∀ c ∈ I, c.isDigit = true) (hF : ∀ c ∈ F, c.isDigit = true) (hne : I ≠ []) :
    jsParseFloat ('-' :: (I ++ '.' :: F))
      = some (-((digitsVal I : ℚ) + (digitsVal F : ℚ) / (10 : ℚ) ^ F.length)) := by
  unfold jsParseFloat
  rw [if_pos (by simp)]
  simp only [List.tail_cons]
  rw [jsParseFloatBody_point (-1) hI hF hne]
  simp

/-! ### The rendered money string and its cleaned form -/

theorem isDigit_ne_open {c : Char} (h : c.isDigit = true) : c ≠ '(' := by
  intro hc; subst hc; simp at h

theorem kept_of_digit {dec : String} {c : Char} (h : c.isDigit = true) :
    isKeptChar dec c = true := by
  simp [isKeptChar, h]

theorem kept_minus {dec : String} : isKeptChar dec '-' = true := by
  simp [isKeptChar]

theorem kept_of_mem_dec {dec : String} {c : Char} (h : c ∈ dec.data) :
    isKeptChar dec c = true := by
  simp [isKeptChar, h]

theorem mem_regroup3F {sep : List Char} :
    ∀ (f : Nat) {l : List Char} {c : Char}, c ∈ regroup3F sep f l → c ∈ sep ∨ c ∈ l := by
  intro f
  induction f with
  | zero => intro l c h; exact Or.inr h
  | succ f ih =>
    intro l c h
    unfold regroup3F at h
    split at h
    · exact Or.inr h
    · rcases List.mem_append.mp h with h1 | h1
      · rcases List.mem_append.mp h1 with h2 | h2
        · exact Or.inr (List.take_subset _ _ h2)
        · exact Or.inl h2
      · rcases ih h1 with h2 | h2
        · exact Or.inl h2
        · exact Or.inr (List.drop_subset _ _ h2)

theorem mem_groupPre {sep base : List Char} {md : Nat} {c : Char}
    (h : c ∈ (if md ≠ 0 then base.take md ++ sep else ([] : List Char))) :
    c ∈ sep ∨ c ∈ base := by
  split at h
  · rcases List.mem_append.mp h with h2 | h2
    · exact Or.inr (List.take_subset _ _ h2)
    · exact Or.inl h2
  · simp at h

theorem mem_groupThousands {sep base : List Char} {c : Char}
    (h : c ∈ groupThousands sep base) : c ∈ sep ∨ c ∈ base := by
  unfold groupThousands at h
  rcases List.mem_append.mp h with h1 | h1
  · exact mem_groupPre h1
  · rcases mem_regroup3F _ h1 with h2 | h2
    · exact Or.inl h2
    · exact Or.inr (List.drop_subset _ _ h2)

theorem formatNumber_nonneg (thou dec : String) (p : Nat) {q : ℚ} (hq : ¬q < 0) :
    formatNumber thou dec p q
      = groupThousands thou.data (natStr (mVal p q / 10 ^ p))
        ++ (if p ≠ 0 then dec.data ++ padDigits p (mVal p q % 10 ^ p) else []) := by
  simp [formatNumber, hq]

theorem mem_formatNumber_abs {thou dec : String} {p : Nat} {w : ℚ} {c : Char}
    (h : c ∈ formatNumber thou dec p |w|) :
    c ∈ thou.data ∨ c ∈ dec.data ∨ c.isDigit = true := by
  rw [formatNumber_nonneg thou dec p (not_lt.mpr (abs_nonneg w))] at h
  rcases List.mem_append.mp h with h1 | h1
  · rcases mem_groupThousands h1 with h2 | h2
    · exact Or.inl h2
    · exact Or.inr (Or.inr (mem_natStr_isDigit h2))
  · split at h1
    · rcases List.mem_append.mp h1 with h2 | h2
      · exact Or.inr (Or.inl h2)
      · exact Or.inr (Or.inr (mem_padDigits_isDigit h2))
    · simp at h1

theorem clean_formatNumber {thou dec : String} {p : Nat} {w : ℚ}
    (hthou : ∀ c ∈ thou.data, isKeptChar dec c = false) :
    (formatNumber thou dec p |w|).filter (isKeptChar dec)
      = natStr (mVal p |w| / 10 ^ p)
        ++ (if p ≠ 0 then dec.data ++ padDigits p (mVal p |w| % 10 ^ p) else []) := by
  rw [formatNumber_nonneg thou dec p (not_lt.mpr (abs_nonneg w)), List.filter_append,
    filter_groupThousands hthou, filter_all_true (fun c hc => kept_of_digit (mem_natStr_isDigit hc))]
  congr 1
  split
  · rw [List.filter_append, filter_all_true (fun c hc => kept_of_mem_dec hc),
      filter_all_true (fun c hc => kept_of_digit (mem_padDigits_isDigit hc))]
  · rfl

theorem data_mk (l : List Char) : (String.mk l).data = l := rfl

theorem strippedAway_nil {dec : String} : strippedAway dec [] := by
  intro c hc
  simp at hc

theorem strippedAway_append {dec : String} {a b : List Char}
    (h1 : strippedAway dec a) (h2 : strippedAway dec b) : strippedAway dec (a ++ b) := by
  intro c hc
  rcases List.mem_append.mp hc with h | h
  · exact h1 c h
  · exact h2 c h

theorem strippedAway_space {dec : String} (hspace : isKeptChar dec ' ' = false) :
    strippedAway dec [' '] := by
  intro c hc
  simp only [List.mem_singleton] at hc
  subst hc
  exact ⟨hspace, by decide, by decide⟩

theorem formatMoney_shape (cfg : Config) (w : ℚ)
    (hsym : strippedAway (decimalSeparatorSymbol cfg) cfg.currency.data)
    (hpct : ∀ c ∈ cfg.currency.data, c ≠ '%')
    (hspace : isKeptChar (decimalSeparatorSymbol cfg) ' ' = false) :
    ∃ pre post : List Char,
      (formatMoney cfg w).data
        = pre ++ (if w < 0 then ['-'] else [])
            ++ formatNumber (thousandSeparatorSymbol cfg) (decimalSeparatorSymbol cfg)
                cfg.precision |w| ++ post
      ∧ strippedAway (decimalSeparatorSymbol cfg) pre
      ∧ strippedAway (decimalSeparatorSymbol cfg) post := by
  simp only [formatMoney]
  by_cases hc : cfg.currency = ""
  · have hsp : symbolPosition cfg = "%v" := by simp [symbolPosition, hc]
    rw [hsp]
    have hd : ("%v" : String).data = ['%', 'v'] := rfl
    rw [hd]
    by_cases hw : w < 0
    · rw [if_pos hw]
      have hneg : replaceFirst ['%', 'v'] ['-', '%', 'v'] (replaceFirst ['-'] [] ['%', 'v'])
          = ['-', '%', 'v'] := rfl
      have h1 : replaceFirst ['%', 's'] cfg.currency.data ['-', '%', 'v'] = ['-', '%', 'v'] := rfl
      rw [hneg, h1]
      refine ⟨[], [], ?_, strippedAway_nil, strippedAway_nil⟩
      have h2 : replaceFirst ['%', 'v']
          (formatNumber (thousandSeparatorSymbol cfg) (decimalSeparatorSymbol cfg)
            cfg.precision |w|) ['-', '%', 'v']
          = '-' :: (formatNumber (thousandSeparatorSymbol cfg) (decimalSeparatorSymbol cfg)
              cfg.precision |w| ++ []) := rfl
      rw [h2]
      simp [hw]
    · rw [if_neg hw]
      have h1 : replaceFirst ['%', 's'] cfg.currency.data ['%', 'v'] = ['%', 'v'] := rfl
      rw [h1]
      refine ⟨[], [], ?_, strippedAway_nil, strippedAway_nil⟩
      have h2 : replaceFirst ['%', 'v']
          (formatNumber (thousandSeparatorSymbol cfg) (decimalSeparatorSymbol cfg)
            cfg.precision |w|) ['%', 'v']
          = formatNumber (thousandSeparatorSymbol cfg) (decimalSeparatorSymbol cfg)
              cfg.precision |w| ++ [] := rfl
      rw [h2]
      simp [hw]
  · by_cases hsuf : cfg.currencySymbolPosition = "suffix"
    · have hsp : symbolPosition cfg = "%v %s" := by simp [symbolPosition, hc, hsuf]
      rw [hsp]
      have hd : ("%v %s" : String).data = ['%', 'v', ' ', '%', 's'] := rfl
      rw [hd]
      by_cases hw : w < 0
      · rw [if_pos hw]
        have hneg : replaceFirst ['%', 'v'] ['-', '%', 'v']
            (replaceFirst ['-'] [] ['%', 'v', ' ', '%', 's'])
            = ['-', '%', 'v', ' ', '%', 's'] := rfl
        rw [hneg]
        have h1 : replaceFirst ['%', 's'] cfg.currency.data ['-', '%', 'v', ' ', '%', 's']
            = '-' :: '%' :: 'v' :: ' ' :: (cfg.currency.data ++ []) := rfl
        rw [h1]
        have h2 : replaceFirst ['%', 'v']
            (formatNumber (thousandSeparatorSymbol cfg) (decimalSeparatorSymbol cfg)
              cfg.precision |w|)
            ('-' :: '%' :: 'v' :: ' ' :: (cfg.currency.data ++ []))
            = '-' :: (formatNumber (thousandSeparatorSymbol cfg) (decimalSeparatorSymbol cfg)
                cfg.precision |w| ++ (' ' :: (cfg.currency.data ++ []))) := rfl
        rw [h2]
        refine ⟨[], ' ' :: (cfg.currency.data ++ []), ?_, strippedAway_nil, ?_⟩
        · simp [hw]
        · show strippedAway _ ([' '] ++ (cfg.currency.data ++ []))
          exact strippedAway_append (strippedAway_space hspace)
            (strippedAway_append hsym strippedAway_nil)
      · rw [if_neg hw]
        have h1 : replaceFirst ['%', 's'] cfg.currency.data ['%', 'v', ' ', '%', 's']
            = '%' :: 'v' :: ' ' :: (cfg.currency.data ++ []) := rfl
        rw [h1]
        have h2 : replaceFirst ['%', 'v']
            (formatNumber (thousandSeparatorSymbol cfg) (decimalSeparatorSymbol cfg)
              cfg.precision |w|)
            ('%' :: 'v' :: ' ' :: (cfg.currency.data ++ []))
            = formatNumber (thousandSeparatorSymbol cfg) (decimalSeparatorSymbol cfg)
                cfg.precision |w| ++ (' ' :: (cfg.currency.data ++ [])) := rfl
        rw [h2]
        refine ⟨[], ' ' :: (cfg.currency.data ++ []), ?_, strippedAway_nil, ?_⟩
        · simp [hw]
        · show strippedAway _ ([' '] ++ (cfg.currency.data ++ []))
          exact strippedAway_append (strippedAway_space hspace)
            (strippedAway_append hsym strippedAway_nil)
    · have hsp : symbolPosition cfg = "%s %v" := by simp [symbolPosition, hc, hsuf]
      rw [hsp]
      have hd : ("%s %v" : String).data = ['%', 's', ' ', '%', 'v'] := rfl
      rw [hd]
      by_cases hw : w < 0
      · rw [if_pos hw]
        have hneg : replaceFirst ['%', 'v'] ['-', '%', 'v']
            (replaceFirst ['-'] [] ['%', 's', ' ', '%', 'v'])
            = ['%', 's', ' ', '-', '%', 'v'] := rfl
        rw [hneg]
        have h1 : replaceFirst ['%', 's'] cfg.currency.data ['%', 's', ' ', '-', '%', 'v']
            = cfg.currency.data ++ [' ', '-', '%', 'v'] := rfl
        rw [h1]
        have hsplit : cfg.currency.data ++ ([' ', '-', '%', 'v'] : List Char)
            = (cfg.currency.data ++ [' ', '-']) ++ ['%', 'v'] ++ [] := by simp
        rw [hsplit]
        have h2 := @replaceFirst_at '%' ['v']
          (formatNumber (thousandSeparatorSymbol cfg) (decimalSeparatorSymbol cfg)
            cfg.precision |w|)
          (cfg.currency.data ++ [' ', '-']) []
          (by
            intro x hx
            rcases List.mem_append.mp hx with h | h
            · exact hpct x h
            · fin_cases h <;> decide)
        rw [h2]
        refine ⟨cfg.currency.data ++ [' '], [], ?_, ?_, strippedAway_nil⟩
        · simp [hw]
        · exact strippedAway_append hsym (strippedAway_space hspace)
      · rw [if_neg hw]
        have h1 : replaceFirst ['%', 's'] cfg.currency.data ['%', 's', ' ', '%', 'v']
            = cfg.currency.data ++ [' ', '%', 'v'] := rfl
        rw [h1]
        have hsplit : cfg.currency.data ++ ([' ', '%', 'v'] : List Char)
            = (cfg.currency.data ++ [' ']) ++ ['%', 'v'] ++ [] := by simp
        rw [hsplit]
        have h2 := @replaceFirst_at '%' ['v']
          (formatNumber (thousandSeparatorSymbol cfg) (decimalSeparatorSymbol cfg)
            cfg.precision |w|)
          (cfg.currency.data ++ [' ']) []
          (by
            intro x hx
            rcases List.mem_append.mp hx with h | h
            · exact hpct x h
            · fin_cases h <;> decide)
        rw [h2]
        refine ⟨cfg.currency.data ++ [' '], [], ?_, ?_, strippedAway_nil⟩
        · simp [hw]
        · exact strippedAway_append hsym (strippedAway_space hspace)

/-! ### Parsing back a rendered money string -/

theorem mVal_abs (p : Nat) (w : ℚ) : mVal p |w| = mVal p w := by
  simp [mVal, abs_abs]

theorem digit_ne_of_not_digit {c d : Char} (hc : c.isDigit = true)
    (hd : d.isDigit = false) : c ≠ d := by
  intro he
  subst he
  rw [hc] at hd
  simp at hd

theorem clean_formatMoney (cfg : Config) (w : ℚ)
    (hdec : ∀ c ∈ (decimalSeparatorSymbol cfg).data,
      c.isDigit = false ∧ c ≠ '-' ∧ c ≠ '(' ∧ c ≠ ')' ∧ c ≠ ' ')
    (hthou : strippedAway (decimalSeparatorSymbol cfg) (thousandSeparatorSymbol cfg).data)
    (hsym : strippedAway (decimalSeparatorSymbol cfg) cfg.currency.data)
    (hpct : ∀ c ∈ cfg.currency.data, c ≠ '%') :
    (jsNegParen (formatMoney cfg w).data).filter (isKeptChar (decimalSeparatorSymbol cfg))
      = (if w < 0 then ['-'] else [])
        ++ natStr (mVal cfg.precision w / 10 ^ cfg.precision)
        ++ (if cfg.precision ≠ 0 then
              (decimalSeparatorSymbol cfg).data
                ++ padDigits cfg.precision (mVal cfg.precision w % 10 ^ cfg.precision)
            else []) := by
  have hspace : isKeptChar (decimalSeparatorSymbol cfg) ' ' = false := by
    simp only [isKeptChar, Bool.or_eq_false_iff]
    refine ⟨⟨by decide, by decide⟩, ?_⟩
    simp only [decide_eq_false_iff_not]
    intro hmem
    exact (hdec ' ' hmem).2.2.2.2 rfl
  obtain ⟨pre, post, hdata, hpre, hpost⟩ := formatMoney_shape cfg w hsym hpct hspace
  rw [hdata]
  have hopen : ∀ c ∈ pre ++ (if w < 0 then ['-'] else [])
      ++ formatNumber (thousandSeparatorSymbol cfg) (decimalSeparatorSymbol cfg)
          cfg.precision |w| ++ post, c ≠ '(' := by
    intro c hcmem
    rcases List.mem_append.mp hcmem with h1 | h1
    · rcases List.mem_append.mp h1 with h2 | h2
      · rcases List.mem_append.mp h2 with h3 | h3
        · exact (hpre c h3).2.1
        · split at h3
          · simp only [List.mem_singleton] at h3; subst h3; decide
          · simp at h3
      · rcases mem_formatNumber_abs h2 with h3 | h3 | h3
        · exact (hthou c h3).2.1
        · exact (hdec c h3).2.2.1
        · exact isDigit_ne_open h3
    · exact (hpost c h1).2.1
  rw [jsNegParen_of_no_open hopen]
  rw [List.filter_append, List.filter_append, List.filter_append]
  rw [filter_all_false (fun c hc => (hpre c hc).1),
    filter_all_false (fun c hc => (hpost c hc).1),
    clean_formatNumber (fun c hc => (hthou c hc).1)]
  have hsgn : (if w < 0 then ['-'] else ([] : List Char)).filter
      (isKeptChar (decimalSeparatorSymbol cfg)) = (if w < 0 then ['-'] else []) := by
    split
    · exact filter_all_true (fun c hc => by
        simp only [List.mem_singleton] at hc; subst hc; exact kept_minus)
    · rfl
  rw [hsgn, mVal_abs]
  simp

theorem formatMoney_ne_empty (cfg : Config) (w : ℚ)
    (hdec : ∀ c ∈ (decimalSeparatorSymbol cfg).data,
      c.isDigit = false ∧ c ≠ '-' ∧ c ≠ '(' ∧ c ≠ ')' ∧ c ≠ ' ')
    (hthou : strippedAway (decimalSeparatorSymbol cfg) (thousandSeparatorSymbol cfg).data)
    (hsym : strippedAway (decimalSeparatorSymbol cfg) cfg.currency.data)
    (hpct : ∀ c ∈ cfg.currency.data, c ≠ '%') :
    formatMoney cfg w ≠ "" := by
  intro heq
  have hcl := clean_formatMoney cfg w hdec hthou hsym hpct
  rw [heq] at hcl
  have : ([] : List Char) = (if w < 0 then ['-'] else [])
      ++ natStr (mVal cfg.precision w / 10 ^ cfg.precision) ++ _ := hcl
  rcases List.append_eq_nil.mp (List.append_eq_nil.mp this.symm).1 with ⟨_, h2⟩
  exact natStr_ne_nil _ h2

theorem cast_div_add_mod (m p : Nat) :
    ((m / 10 ^ p : ℕ) : ℚ) + ((m % 10 ^ p : ℕ) : ℚ) / (10 : ℚ) ^ p = (m : ℚ) / (10 : ℚ) ^ p := by
  have h2 : ((10 : ℚ)) ^ p * ((m / 10 ^ p : ℕ) : ℚ) + ((m % 10 ^ p : ℕ) : ℚ) = (m : ℚ) := by
    exact_mod_cast Nat.div_add_mod m (10 ^ p)
  field_simp
  linarith [h2]

theorem unformat_formatMoney (cfg : Config) (w : ℚ) (hg : roundTripGuards cfg) :
    unformatM cfg (JSVal.str (formatMoney cfg w)) = gridRound cfg.precision w := by
  obtain ⟨hnn, hdec, hthou, hsym, hpct⟩ := hg
  have hSne : formatMoney cfg w ≠ "" := formatMoney_ne_empty cfg w hdec hthou hsym hpct
  have hcl := clean_formatMoney cfg w hdec hthou hsym hpct
  obtain ⟨d0, ds, hde⟩ : ∃ d0 ds, (decimalSeparatorSymbol cfg).data = d0 :: ds := by
    cases he : (decimalSeparatorSymbol cfg).data with
    | nil => exact absurd he hnn
    | cons d0 ds => exact ⟨d0, ds, rfl⟩
  have hd0 := hdec d0 (by rw [hde]; simp)
  have hIdig : ∀ c ∈ natStr (mVal cfg.precision w / 10 ^ cfg.precision), c.isDigit = true :=
    fun c hc => mem_natStr_isDigit hc
  have hIne : natStr (mVal cfg.precision w / 10 ^ cfg.precision) ≠ [] := natStr_ne_nil _
  have hInotd0 : ∀ c ∈ natStr (mVal cfg.precision w / 10 ^ cfg.precision), c ≠ d0 :=
    fun c hc => digit_ne_of_not_digit (mem_natStr_isDigit hc) hd0.1
  simp only [unformatM]
  rw [if_neg (by simp [hSne])]
  simp only [accUnformat]
  rw [if_neg hSne]
  rw [hcl]
  by_cases hp : cfg.precision = 0
  · rw [if_neg (not_not_intro hp), List.append_nil, hde]
    by_cases hw : w < 0
    · rw [if_pos hw, List.singleton_append]
      rw [replaceFirst_of_not_head (by
        intro c hc
        rcases List.mem_cons.mp hc with h1 | h1
        · subst h1; exact fun he => hd0.2.1 he.symm
        · exact hInotd0 c h1)]
      rw [jsParseFloat_neg hIdig hIne]
      rw [digitsVal_natStr]
      simp [gridRound, hw, hp]
    · rw [if_neg hw, List.nil_append]
      rw [replaceFirst_of_not_head (by
        intro c hc
        exact hInotd0 c hc)]
      rw [jsParseFloat_pos hIdig hIne]
      rw [digitsVal_natStr]
      simp [gridRound, hw, hp]
  · rw [if_pos hp] at hcl ⊢
    rw [hde]
    have hmod : mVal cfg.precision w % 10 ^ cfg.precision < 10 ^ cfg.precision :=
      Nat.mod_lt _ (by positivity)
    have hFdig : ∀ c ∈ padDigits cfg.precision (mVal cfg.precision w % 10 ^ cfg.precision),
        c.isDigit = true := fun c hc => mem_padDigits_isDigit hc
    have hFlen : (padDigits cfg.precision (mVal cfg.precision w % 10 ^ cfg.precision)).length
        = cfg.precision := padDigits_length hp hmod
    have hassoc : (if w < 0 then ['-'] else [])
        ++ natStr (mVal cfg.precision w / 10 ^ cfg.precision)
        ++ ((d0 :: ds) ++ padDigits cfg.precision (mVal cfg.precision w % 10 ^ cfg.precision))
        = ((if w < 0 then ['-'] else [])
            ++ natStr (mVal cfg.precision w / 10 ^ cfg.precision))
          ++ (d0 :: ds)
          ++ padDigits cfg.precision (mVal cfg.precision w % 10 ^ cfg.precision) := by
      simp
    rw [hassoc]
    rw [replaceFirst_at _ (by
      intro c hc
      rcases List.mem_append.mp hc with h1 | h1
      · split at h1
        · simp only [List.mem_singleton] at h1; subst h1; exact fun he => hd0.2.1 he.symm
        · simp at h1
      · exact hInotd0 c h1)]
    by_cases hw : w < 0
    · rw [if_pos hw]
      have hform : (['-'] ++ natStr (mVal cfg.precision w / 10 ^ cfg.precision)) ++ ['.']
          ++ padDigits cfg.precision (mVal cfg.precision w % 10 ^ cfg.precision)
          = '-' :: (natStr (mVal cfg.precision w / 10 ^ cfg.precision)
              ++ '.' :: padDigits cfg.precision (mVal cfg.precision w % 10 ^ cfg.precision)) := by
        simp
      rw [hform, jsParseFloat_neg_point hIdig hFdig hIne]
      rw [digitsVal_natStr, digitsVal_padDigits, hFlen, cast_div_add_mod]
      simp [gridRound, hw]
    · rw [if_neg hw]
      have hform : (([] : List Char) ++ natStr (mVal cfg.precision w / 10 ^ cfg.precision)) ++ ['.']
          ++ padDigits cfg.precision (mVal cfg.precision w % 10 ^ cfg.precision)
          = natStr (mVal cfg.precision w / 10 ^ cfg.precision)
              ++ '.' :: padDigits cfg.precision (mVal cfg.precision w % 10 ^ cfg.precision) := by
        simp
      rw [hform, jsParseFloat_pos_point hIdig hFdig hIne]
      rw [digitsVal_natStr, digitsVal_padDigits, hFlen, cast_div_add_mod]
      simp [gridRound, hw]

/-! ### Grid rounding and clamping -/

theorem mVal_mono_abs {p : Nat} {a b : ℚ} (h : |a| ≤ |b|) : mVal p a ≤ mVal p b := by
  unfold mVal jsRound
  apply Int.toNat_le_toNat
  apply Int.floor_le_floor
  have hp : (0 : ℚ) < 10 ^ p := by positivity
  nlinarith

theorem gridRound_nonneg {p : Nat} {w : ℚ} (h : 0 ≤ w) : 0 ≤ gridRound p w := by
  unfold gridRound
  rw [if_neg (not_lt.mpr h), one_mul]
  positivity

theorem gridRound_nonpos {p : Nat} {w : ℚ} (h : w < 0) : gridRound p w ≤ 0 := by
  unfold gridRound
  rw [if_pos h]
  have : (0 : ℚ) ≤ (mVal p w : ℚ) / 10 ^ p := by positivity
  linarith

theorem gridRound_neg_of {p : Nat} {w : ℚ} (h : w < 0) (hm : mVal p w ≠ 0) :
    gridRound p w < 0 := by
  unfold gridRound
  rw [if_pos h]
  have h1 : (0 : ℚ) < (mVal p w : ℚ) / 10 ^ p := by
    apply div_pos
    · exact_mod_cast Nat.pos_of_ne_zero hm
    · positivity
  linarith

theorem gridRound_mono {p : Nat} {a b : ℚ} (hab : a ≤ b) :
    gridRound p a ≤ gridRound p b := by
  by_cases ha : a < 0
  · by_cases hb : b < 0
    · unfold gridRound
      rw [if_pos ha, if_pos hb]
      have habs : |b| ≤ |a| := by
        rw [abs_of_neg ha, abs_of_neg hb]
        linarith
      have hc : (mVal p b : ℚ) ≤ (mVal p a : ℚ) := by
        exact_mod_cast mVal_mono_abs (p := p) habs
      have h10 : (0 : ℚ) < 10 ^ p := by positivity
      have hdiv : (mVal p b : ℚ) / 10 ^ p ≤ (mVal p a : ℚ) / 10 ^ p :=
        (div_le_div_iff_of_pos_right h10).mpr hc
      linarith
    · exact le_trans (gridRound_nonpos ha) (gridRound_nonneg (not_lt.mp hb))
  · have hb : ¬b < 0 := fun h => ha (lt_of_le_of_lt hab h)
    unfold gridRound
    rw [if_neg ha, if_neg hb, one_mul, one_mul]
    have habs : |a| ≤ |b| := by
      rw [abs_of_nonneg (not_lt.mp ha), abs_of_nonneg (not_lt.mp hb)]
      exact hab
    have hc : (mVal p a : ℚ) ≤ (mVal p b : ℚ) := by
      exact_mod_cast mVal_mono_abs (p := p) habs
    have h10 : (0 : ℚ) < 10 ^ p := by positivity
    exact (div_le_div_iff_of_pos_right h10).mpr hc

theorem jsRound_natCast (n : Nat) : jsRound (n : ℚ) = n := by
  unfold jsRound
  rw [Int.floor_eq_iff]
  constructor
  · push_cast; linarith
  · push_cast; linarith

theorem abs_gridRound (p : Nat) (w : ℚ) :
    |gridRound p w| = (mVal p w : ℚ) / 10 ^ p := by
  unfold gridRound
  split
  · rw [abs_mul]
    rw [abs_of_nonneg (by positivity : (0 : ℚ) ≤ (mVal p w : ℚ) / 10 ^ p)]
    norm_num
  · rw [one_mul, abs_of_nonneg (by positivity)]

theorem mVal_gridRound (p : Nat) (w : ℚ) : mVal p (gridRound p w) = mVal p w := by
  have h1 : |gridRound p w| * (10 : ℚ) ^ p = (mVal p w : ℚ) := by
    rw [abs_gridRound, div_mul_cancel₀ _ (by positivity : ((10 : ℚ) ^ p) ≠ 0)]
  show (jsRound (|gridRound p w| * (10 : ℚ) ^ p)).toNat = mVal p w
  rw [h1, jsRound_natCast]
  simp

theorem gridRound_idem (p : Nat) (w : ℚ) :
    gridRound p (gridRound p w) = gridRound p w := by
  set u := gridRound p w with hu_def
  have hm : mVal p u = mVal p w := by rw [hu_def]; exact mVal_gridRound p w
  by_cases hu : u < 0
  · have hw : w < 0 := by
      by_contra hw
      have := gridRound_nonneg (p := p) (not_lt.mp hw)
      rw [← hu_def] at this
      exact absurd this (not_le.mpr hu)
    show gridRound p u = u
    unfold gridRound
    rw [if_pos hu, hm, hu_def]
    unfold gridRound
    rw [if_pos hw]
  · show gridRound p u = u
    unfold gridRound
    rw [if_neg hu, hm, one_mul, hu_def]
    by_cases hw : w < 0
    · have h1 : gridRound p w = -1 * ((mVal p w : ℚ) / 10 ^ p) := by
        unfold gridRound
        rw [if_pos hw]
      have h2 : (0 : ℚ) ≤ (mVal p w : ℚ) / 10 ^ p := by positivity
      have h3 : (mVal p w : ℚ) / 10 ^ p ≤ 0 := by
        have h4 := not_lt.mp hu
        rw [hu_def, h1] at h4
        linarith
      rw [h1]
      linarith
    · have h1 : gridRound p w = 1 * ((mVal p w : ℚ) / 10 ^ p) := by
        unfold gridRound
        rw [if_neg hw]
      rw [h1, one_mul]

theorem clampCore_num (cfg : Config) (x init : ℚ) :
    clampCore cfg (JSVal.num x) init
      = if cfg.minus = false ∧ x < 0 then (if 0 ≤ cfg.min then cfg.min else 0)
        else if x ≤ cfg.min then cfg.min
        else if cfg.max ≤ x then cfg.max else init := by
  simp only [clampCore, jsGEq, jsLEq, jsLtZero, jsToNumber, Bool.and_eq_true,
    Bool.not_eq_true', decide_eq_true_eq]

theorem unformatM_num (cfg : Config) (x : ℚ) : unformatM cfg (JSVal.num x) = x := by
  simp [unformatM, accUnformat]

theorem formatP0_num (cfg : Config) (x : ℚ) :
    formatP0 cfg (JSVal.num x)
      = JSVal.str (formatMoney cfg (clampCore cfg (JSVal.num x) x)) := by
  rw [formatP0, if_neg (by simp), unformatM_num]

theorem formatMoney_congr (cfg : Config) {a b : ℚ} (hsign : a < 0 ↔ b < 0)
    (hm : mVal cfg.precision a = mVal cfg.precision b) :
    formatMoney cfg a = formatMoney cfg b := by
  have hb : formatNumber (thousandSeparatorSymbol cfg) (decimalSeparatorSymbol cfg)
      cfg.precision |a|
      = formatNumber (thousandSeparatorSymbol cfg) (decimalSeparatorSymbol cfg)
        cfg.precision |b| := by
    rw [formatNumber_nonneg _ _ _ (not_lt.mpr (abs_nonneg a)),
      formatNumber_nonneg _ _ _ (not_lt.mpr (abs_nonneg b)),
      mVal_abs, mVal_abs, hm]
  simp only [formatMoney]
  rw [hb]
  by_cases ha : a < 0
  · rw [if_pos ha, if_pos (hsign.mp ha)]
  · rw [if_neg ha, if_neg (fun h => ha (hsign.mpr h))]

theorem clamp_grid_stable (cfg : Config) (x : ℚ)
    (hmm : cfg.min ≤ cfg.max) (hnegmax : cfg.max < 0 → cfg.minus = true)
    (hx1 : cfg.min ≤ x) (hx2 : x ≤ cfg.max)
    {w u : ℚ} (hw_def : w = clampCore cfg (JSVal.num x) x)
    (hu_def : u = gridRound cfg.precision w)
    (hz : ¬(w < 0 ∧ mVal cfg.precision w = 0)) :
    (clampCore cfg (JSVal.num u) u < 0 ↔ w < 0)
    ∧ mVal cfg.precision (clampCore cfg (JSVal.num u) u) = mVal cfg.precision w := by
  have hwE : w = if cfg.minus = false ∧ x < 0 then (if 0 ≤ cfg.min then cfg.min else 0)
      else if x ≤ cfg.min then cfg.min else if cfg.max ≤ x then cfg.max else x := by
    rw [hw_def, clampCore_num]
  have hwmin : cfg.min ≤ w := by
    rw [hwE]
    split_ifs <;> linarith
  have hwmax : w ≤ cfg.max := by
    rw [hwE]
    split_ifs with h1 h2 h3 h4
    · linarith
    · have hmax0 : 0 ≤ cfg.max := by
        by_contra hc
        push_neg at hc
        have := hnegmax hc
        rw [h1.1] at this
        simp at this
      linarith
    · linarith
    · linarith
    · linarith
  have hwsign : cfg.minus = false → 0 ≤ w := by
    intro hmf
    rw [hwE]
    by_cases hxneg : x < 0
    · rw [if_pos ⟨hmf, hxneg⟩]
      split_ifs with h2
      · linarith
      · linarith
    · rw [if_neg (fun h => hxneg h.2)]
      have hx0 : 0 ≤ x := not_lt.mp hxneg
      split_ifs <;> linarith
  have hPuE : clampCore cfg (JSVal.num u) u
      = if u ≤ cfg.min then cfg.min else if cfg.max ≤ u then cfg.max else u := by
    rw [clampCore_num]
    rw [if_neg (by
      intro hcon
      have h0 : 0 ≤ u := by rw [hu_def]; exact gridRound_nonneg (hwsign hcon.1)
      exact absurd hcon.2 (not_lt.mpr h0))]
  have hidem : gridRound cfg.precision u = u := by
    rw [hu_def]; exact gridRound_idem cfg.precision w
  have hmu : mVal cfg.precision u = mVal cfg.precision w := by
    rw [hu_def]; exact mVal_gridRound cfg.precision w
  have hwu_sign : w < 0 → u < 0 := by
    intro hw0
    rw [hu_def]
    refine gridRound_neg_of hw0 ?_
    intro hm0
    exact hz ⟨hw0, hm0⟩
  have hw_nonneg_u : ¬w < 0 → 0 ≤ u := by
    intro hw0
    rw [hu_def]
    exact gridRound_nonneg (not_lt.mp hw0)
  rw [hPuE]
  by_cases hc1 : u ≤ cfg.min
  · rw [if_pos hc1]
    have hgmin : gridRound cfg.precision cfg.min = u := by
      have hle1 : u ≤ gridRound cfg.precision cfg.min := by
        calc u = gridRound cfg.precision u := hidem.symm
          _ ≤ gridRound cfg.precision cfg.min := gridRound_mono hc1
      have hle2 : gridRound cfg.precision cfg.min ≤ u := by
        rw [hu_def]
        exact gridRound_mono hwmin
      linarith
    refine ⟨⟨?_, ?_⟩, ?_⟩
    · intro hmin0
      by_contra hw0
      have := hw_nonneg_u hw0
      linarith
    · intro hw0
      have hu0 : u < 0 := hwu_sign hw0
      by_contra hmin0
      have h0 : 0 ≤ gridRound cfg.precision cfg.min := gridRound_nonneg (not_lt.mp hmin0)
      rw [hgmin] at h0
      linarith
    · calc mVal cfg.precision cfg.min
          = mVal cfg.precision (gridRound cfg.precision cfg.min) :=
            (mVal_gridRound _ _).symm
        _ = mVal cfg.precision u := by rw [hgmin]
        _ = mVal cfg.precision w := hmu
  · rw [if_neg hc1]
    by_cases hc2 : cfg.max ≤ u
    · rw [if_pos hc2]
      have hgmax : gridRound cfg.precision cfg.max = u := by
        have hle1 : gridRound cfg.precision cfg.max ≤ u := by
          calc gridRound cfg.precision cfg.max
              ≤ gridRound cfg.precision u := gridRound_mono hc2
            _ = u := hidem
        have hle2 : u ≤ gridRound cfg.precision cfg.max := by
          rw [hu_def]
          exact gridRound_mono hwmax
        linarith
      refine ⟨⟨?_, ?_⟩, ?_⟩
      · intro hmax0
        by_contra hw0
        have := not_lt.mp hw0
        linarith
      · intro hw0
        have hu0 : u < 0 := hwu_sign hw0
        linarith
      · calc mVal cfg.precision cfg.max
            = mVal cfg.precision (gridRound cfg.precision cfg.max) :=
              (mVal_gridRound _ _).symm
          _ = mVal cfg.precision u := by rw [hgmax]
          _ = mVal cfg.precision w := hmu
    · rw [if_neg hc2]
      refine ⟨⟨?_, hwu_sign⟩, hmu⟩
      intro hu0
      by_contra hw0
      exact absurd hu0 (not_lt.mpr (hw_nonneg_u hw0))

theorem length_ne_zero_of_ne_empty {s : String} (h : s ≠ "") : s.length ≠ 0 := by
  intro h0
  apply h
  cases s with
  | mk data =>
    have hd : data = [] := List.length_eq_zero.mp (by simpa [String.length] using h0)
    rw [hd]

/-! ### Claims -/

/-- C1: the clamp pipeline evaluates its three checks in the fixed source
order max, min, sign, each unconditionally overwriting the running result;
with min=0, max=100, minus=false it sends -5 to 0 and 150 to 100, and with
min=10 it sends -5 to 10. -/
theorem c1_clamp_check_order :
    (∀ (cfg : Config) (v : ℚ), clampNum cfg v = specClamp cfg.max cfg.min cfg.minus v)
    ∧ clampNum { min := 0, max := 100 } (-5) = 0
    ∧ clampNum { min := 0, max := 100 } 150 = 100
    ∧ clampNum { min := 10, max := 100 } (-5) = 10 := by
  refine ⟨fun cfg v => ?_, by decide, by decide, by decide⟩
  unfold clampNum
  rw [unformatM_num, clampCore_num]
  rfl

/-- C2 counterexample: on blur of non-empty text that unformats to zero, the
src variant stores the raw number 0 as the amount, not the formatted
rendering of 0 (at precision 1 the formatted zero is "0.0" while the stored
amount renders as "0"). -/
theorem c2_raw_zero_counterexample :
    onBlurSrc { precision := 1 } "abc" = (JSVal.num 0, some (JSVal.num 0))
    ∧ formatMoney { precision := 1 } 0 = "0.0"
    ∧ JSVal.num 0 ≠ JSVal.str "0.0" := by
  decide

/-- C2 amended: on blur of non-empty display text whose unformatted value is
falsy, both variants emit the canonical 0, but only the part_000 variant sets
the display to the formatted rendering of 0 (`format(0)`); the src variant
stores the raw number 0. -/
theorem c2_blur_zero_commit (cfg : Config) (s : String) (hne : s ≠ "")
    (hu : unformatM cfg (JSVal.str s) = 0) :
    onBlurSrc cfg s = (JSVal.num 0, some (JSVal.num 0))
    ∧ updateP0 cfg s = (formatP0 cfg (JSVal.num 0), some (JSVal.num 0)) := by
  have hlen : s.length ≠ 0 := length_ne_zero_of_ne_empty hne
  constructor
  · rw [onBlurSrc, if_pos ⟨hlen, hu⟩]
  · simp only [updateP0]
    rw [if_pos hu, if_pos hlen]

/-- C2 witness: instantiating the amended blur-commit behaviour at the
default configuration and the text "abc". -/
theorem c2_blur_zero_commit_witness :
    ("abc" : String) ≠ "" ∧ unformatM {} (JSVal.str "abc") = 0
    ∧ onBlurSrc {} "abc" = (JSVal.num 0, some (JSVal.num 0)) :=
  ⟨by decide, by decide, (c2_blur_zero_commit {} "abc" (by decide) (by decide)).1⟩

/-- C3 counterexample: on blur with empty display, the src variant with
emptyValue 5 formats the empty value into the display ("5") instead of
leaving it empty, and the part_000 variant with emptyValue 0 emits the empty
string rather than the configured emptyValue 0. -/
theorem c3_empty_blur_counterexample :
    onBlurSrc { emptyValue := JSVal.num 5 } "" = (JSVal.str "5", some (JSVal.num 5))
    ∧ JSVal.str "5" ≠ JSVal.str ""
    ∧ updateP0 { emptyValue := JSVal.num 0 } "" = (JSVal.str "", some (JSVal.str ""))
    ∧ some (JSVal.str "") ≠ some (JSVal.num 0) := by
  decide

/-- C3 amended: in the part_000 variant a blur with empty display always
leaves the display empty, and emits the numeric interpretation of the
configured emptyValue when that is nonzero and the empty string otherwise
(under the default numeric outputType). -/
theorem c3_empty_blur_p0 (cfg : Config) (hout : cfg.outputType = "Number") :
    updateP0 cfg "" = (JSVal.str "",
      some (if accUnformat (decimalSeparatorSymbol cfg) cfg.emptyValue = 0 then JSVal.str ""
        else JSVal.num (accUnformat (decimalSeparatorSymbol cfg) cfg.emptyValue))) := by
  have he : unformatM cfg (JSVal.str "") = accUnformat (decimalSeparatorSymbol cfg) cfg.emptyValue := by
    simp [unformatM]
  simp only [updateP0]
  rw [he]
  by_cases h0 : accUnformat (decimalSeparatorSymbol cfg) cfg.emptyValue = 0
  · rw [if_pos h0, if_pos h0, if_neg (by decide)]
  · rw [if_neg h0, if_neg h0]
    rw [show formatP0 cfg (JSVal.str "") = JSVal.str "" from by
      rw [formatP0, if_pos (Or.inl rfl)]]
    rw [emitOutput, hout, if_neg (by decide)]

/-- C3 witness: with emptyValue 5 the empty-blur commit emits 5 and keeps
the display empty. -/
theorem c3_empty_blur_p0_witness :
    ({ emptyValue := JSVal.num 5 } : Config).outputType = "Number"
    ∧ updateP0 { emptyValue := JSVal.num 5 } "" = (JSVal.str "",
        some (if accUnformat (decimalSeparatorSymbol { emptyValue := JSVal.num 5 })
            ({ emptyValue := JSVal.num 5 } : Config).emptyValue = 0 then JSVal.str ""
          else JSVal.num (accUnformat (decimalSeparatorSymbol { emptyValue := JSVal.num 5 })
            ({ emptyValue := JSVal.num 5 } : Config).emptyValue))) :=
  ⟨rfl, c3_empty_blur_p0 { emptyValue := JSVal.num 5 } rfl⟩

/-- C4: in the part_000 variant, every blur-commit with a truthy unformatted
display emits the unformatted pre-commit text with no clamping (under the
default numeric outputType), and with min=0, max=100 the display "150" emits
150 — strictly above max — while the display is replaced by the clamped
rendering "100". -/
theorem c4_unclamped_emit :
    (∀ (cfg : Config) (s : String), cfg.outputType = "Number"
      → unformatM cfg (JSVal.str s) ≠ 0
      → (updateP0 cfg s).2 = some (JSVal.num (unformatM cfg (JSVal.str s))))
    ∧ updateP0 { min := 0, max := 100 } "150" = (JSVal.str "100", some (JSVal.num 150))
    ∧ ¬((150 : ℚ) ≤ ({ min := 0, max := 100 } : Config).max) := by
  refine ⟨fun cfg s hout hne => ?_, by decide, by decide⟩
  simp only [updateP0]
  rw [if_neg hne]
  show some (emitOutput cfg (unformatM cfg (JSVal.str s))) = _
  rw [emitOutput, hout, if_neg (by decide)]

/-- C4 witness: the unclamped-emission clause instantiated at the default
configuration and display "42". -/
theorem c4_unclamped_emit_witness :
    unformatM {} (JSVal.str "42") ≠ 0
    ∧ (updateP0 {} "42").2 = some (JSVal.num (unformatM {} (JSVal.str "42"))) :=
  ⟨by decide, c4_unclamped_emit.1 {} "42" rfl (by decide)⟩

/-- C5 counterexample: with display text "05" (numeric interpretation 5) and
new external value 5, the claim predicts no recompute, but the src watcher
recomputes (JS strict inequality between a number and a string always
holds), replacing the display with "5". -/
theorem c5_watcher_counterexample :
    unformatM {} (JSVal.str "05") = 5
    ∧ valueWatcherSrc {} (JSVal.str "05") (JSVal.num 5) = JSVal.str "5"
    ∧ JSVal.str "5" ≠ JSVal.str "05" := by
  decide

/-- C5 amended: the value watcher recomputes exactly when `newValue !==
amount` under JS strict equality; since the displayed amount is a string and
the canonical value a number, every external numeric change recomputes the
display from the new value alone (via process in src, format in part_000),
regardless of the display's numeric interpretation; for a numeric amount the
comparison is plain value equality. -/
theorem c5_watcher_strict_inequality :
    ∀ (cfg : Config) (s : String) (q a : ℚ),
      valueWatcherSrc cfg (JSVal.str s) (JSVal.num q) = processSrc cfg (JSVal.num q)
      ∧ valueWatcherP0 cfg (JSVal.str s) (JSVal.num q) = formatP0 cfg (JSVal.num q)
      ∧ valueWatcherSrc cfg (JSVal.num a) (JSVal.num q)
          = (if q = a then JSVal.num a else processSrc cfg (JSVal.num q)) := by
  intro cfg s q a
  refine ⟨rfl, rfl, ?_⟩
  by_cases he : q = a
  · simp [valueWatcherSrc, jsStrictEq, he]
  · simp [valueWatcherSrc, jsStrictEq, he]

/-- C6 counterexample: in the part_000 variant with emptyValue 5, a
separator change while the canonical value is the empty string leaves the
display empty, whereas the full process pipeline on that value renders "5". -/
theorem c6_config_watcher_counterexample :
    configWatcherP0 { emptyValue := JSVal.num 5 } (JSVal.str "") (JSVal.str "1") = JSVal.str ""
    ∧ processSrc { emptyValue := JSVal.num 5 } (JSVal.str "") = JSVal.str "5"
    ∧ JSVal.str "" ≠ JSVal.str "5" := by
  decide

/-- C6 amended: on a separator/currency/precision change both variants
recompute the display from the current external value only (the displayed
text is ignored); the src variant always applies the full process pipeline,
and the part_000 variant applies the same pipeline except that an
empty-string or null canonical value passes through unchanged. -/
theorem c6_config_watcher (cfg : Config) (v a a' : JSVal) :
    configWatcherSrc cfg v a = processSrc cfg v
    ∧ configWatcherP0 cfg v a = configWatcherP0 cfg v a'
    ∧ configWatcherSrc cfg v a = configWatcherSrc cfg v a'
    ∧ (v ≠ JSVal.str "" → v ≠ JSVal.nul → configWatcherP0 cfg v a = processSrc cfg v) := by
  refine ⟨rfl, rfl, rfl, fun h1 h2 => ?_⟩
  rw [configWatcherP0, formatP0, if_neg (by simp [h1, h2])]
  rfl

/-- C6 witness: the part_000 watcher agrees with the full pipeline at the
numeric value 7. -/
theorem c6_config_watcher_witness :
    JSVal.num 7 ≠ JSVal.str "" ∧ JSVal.num 7 ≠ JSVal.nul
    ∧ configWatcherP0 {} (JSVal.num 7) (JSVal.str "x") = processSrc {} (JSVal.num 7) :=
  ⟨by decide, by decide,
    (c6_config_watcher {} (JSVal.num 7) (JSVal.str "x") (JSVal.str "y")).2.2.2
      (by decide) (by decide)⟩

/-- C7: the resolved decimal separator is the override verbatim when given,
else "." for shorthand "," and "," otherwise; the resolved thousand
separator is the override verbatim when given, else "." for shorthand ".",
a single space for "space", and "," otherwise. -/
theorem c7_separator_resolution :
    ∀ cfg : Config,
      (decimalSeparatorSymbol cfg, thousandSeparatorSymbol cfg)
        = specSeparators cfg.decimalSeparator cfg.thousandSeparator cfg.separator := by
  intro cfg
  unfold decimalSeparatorSymbol thousandSeparatorSymbol specSeparators
  cases cfg.decimalSeparator <;> cases cfg.thousandSeparator <;> rfl

/-- C8 counterexample: a decimalSeparator override equal to the resolved
thousand separator makes the two coincide (","), and so does any shorthand
other than ",", ".", "space" (for instance "x") even without overrides. -/
theorem c8_distinct_counterexample :
    decimalSeparatorSymbol { separator := ",", decimalSeparator := some "," } = ","
    ∧ thousandSeparatorSymbol { separator := ",", decimalSeparator := some "," } = ","
    ∧ decimalSeparatorSymbol { separator := "x" } = ","
    ∧ thousandSeparatorSymbol { separator := "x" } = "," := by
  decide

/-- C8 amended: the resolved decimal and thousand separators are distinct
whenever no overrides are given and the shorthand is one of ",", ".",
"space"; with an override, or any other shorthand value, they can coincide. -/
theorem c8_distinct_when_unoverridden (cfg : Config)
    (h1 : cfg.decimalSeparator = none) (h2 : cfg.thousandSeparator = none)
    (h3 : cfg.separator = "," ∨ cfg.separator = "." ∨ cfg.separator = "space") :
    decimalSeparatorSymbol cfg ≠ thousandSeparatorSymbol cfg := by
  unfold decimalSeparatorSymbol thousandSeparatorSymbol
  rw [h1, h2]
  rcases h3 with h | h | h <;> rw [h] <;> decide

/-- C8 witness: the default configuration (shorthand ",", no overrides)
resolves to distinct separators. -/
theorem c8_distinct_witness :
    ({} : Config).decimalSeparator = none ∧ ({} : Config).thousandSeparator = none
    ∧ decimalSeparatorSymbol {} ≠ thousandSeparatorSymbol {} :=
  ⟨rfl, rfl, c8_distinct_when_unoverridden {} rfl rfl (Or.inl rfl)⟩

/-- C9: unformat substitutes the configured emptyValue exactly when the
input is the empty string; any string with no digits parses to 0;
unformat("abc") is 0 and unformat("") with emptyValue 5 is 5. -/
theorem c9_unformat_lenient :
    (∀ (cfg : Config) (s : String), s ≠ ""
      → unformatM cfg (JSVal.str s)
          = accUnformat (decimalSeparatorSymbol cfg) (JSVal.str s))
    ∧ (∀ cfg : Config, unformatM cfg (JSVal.str "")
        = accUnformat (decimalSeparatorSymbol cfg) cfg.emptyValue)
    ∧ (∀ (dec : String) (s : String), (∀ c ∈ s.data, c.isDigit = false)
        → accUnformat dec (JSVal.str s) = 0)
    ∧ unformatM {} (JSVal.str "abc") = 0
    ∧ unformatM { emptyValue := JSVal.num 5 } (JSVal.str "") = 5 := by
  refine ⟨fun cfg s h => by simp [unformatM, h], fun cfg => by simp [unformatM],
    fun dec s h => ?_, by decide, by decide⟩
  simp only [accUnformat]
  by_cases hs : s = ""
  · rw [if_pos hs]
  · rw [if_neg hs, jsNegParen_of_no_digit h]
    have hrep : ∀ c ∈ replaceFirst dec.data ['.'] (s.data.filter (isKeptChar dec)),
        c.isDigit = false := by
      intro c hc
      rcases mem_replaceFirst hc with h1 | h1
      · simp only [List.mem_singleton] at h1
        subst h1
        decide
      · exact h c (List.mem_of_mem_filter h1)
    rw [jsParseFloat_none_of_no_digit hrep]
    rfl

/-- C9 witness: the digit-free string "xyz" unformats to 0. -/
theorem c9_unformat_lenient_witness :
    (∀ c ∈ ("xyz" : String).data, c.isDigit = false)
    ∧ accUnformat "." (JSVal.str "xyz") = 0 :=
  ⟨by decide, c9_unformat_lenient.2.2.1 "." "xyz" (by decide)⟩

/-- C10 counterexample: with min=-10, max=10, minus allowed and precision 0,
the in-range value -2/5 formats to "-0", which unformats to 0 and reformats
to "0": format-unformat-format differs from format. -/
theorem c10_round_trip_counterexample :
    ({ min := -10, max := 10, minus := true } : Config).min ≤ -(2 / 5)
    ∧ (-(2 / 5) : ℚ) ≤ ({ min := -10, max := 10, minus := true } : Config).max
    ∧ formatP0 { min := -10, max := 10, minus := true } (JSVal.num (-(2 / 5)))
        = JSVal.str "-0"
    ∧ formatP0 { min := -10, max := 10, minus := true }
        (JSVal.num (unformatM { min := -10, max := 10, minus := true }
          (formatP0 { min := -10, max := 10, minus := true } (JSVal.num (-(2 / 5))))))
      ≠ formatP0 { min := -10, max := 10, minus := true } (JSVal.num (-(2 / 5))) := by
  decide

/-- C10 amended: format-unformat-format equals format for every in-range
value, for every configuration whose separators and symbol satisfy the
parse-compatibility guards, whose bounds are ordered with a negative-only
range requiring minus, and whose clamped value does not render as negative
zero. -/
theorem c10_round_trip (cfg : Config) (x : ℚ)
    (hg : roundTripGuards cfg)
    (hmm : cfg.min ≤ cfg.max) (hnegmax : cfg.max < 0 → cfg.minus = true)
    (hx1 : cfg.min ≤ x) (hx2 : x ≤ cfg.max)
    (hz : ¬(clampCore cfg (JSVal.num x) x < 0
        ∧ mVal cfg.precision (clampCore cfg (JSVal.num x) x) = 0)) :
    formatP0 cfg (JSVal.num (unformatM cfg (formatP0 cfg (JSVal.num x))))
      = formatP0 cfg (JSVal.num x) := by
  rw [formatP0_num cfg x, unformat_formatMoney cfg _ hg, formatP0_num]
  have hstab := clamp_grid_stable cfg x hmm hnegmax hx1 hx2 rfl rfl hz
  exact congrArg JSVal.str (formatMoney_congr cfg hstab.1 hstab.2)

/-- C10 witness: the guarded round trip instantiated at the default
configuration and the value 1234 (rendered "1,234"). -/
theorem c10_round_trip_witness :
    roundTripGuards ({} : Config)
    ∧ formatP0 {} (JSVal.num (unformatM {} (formatP0 {} (JSVal.num 1234))))
        = formatP0 {} (JSVal.num 1234) :=
  ⟨by decide, c10_round_trip {} 1234 (by decide) (by decide) (by decide) (by decide)
    (by decide) (by decide)⟩
